import Mathlib

/-!
A verification development for `omnixai/explainers/tabular/agnostic/bias.py`
(class `BiasAnalyzer`): a shallow embedding of the module's functions,
followed by theorems about them.

Embedding conventions:
* Classification labels, cached predictions (arg-max indices) and
  categorical feature values are modelled as `Int`; real-valued quantities
  produced by Python's `/` are modelled as exact rationals (`ℚ`), so the
  float literal `1e-8` becomes `1 / 100000000`.
* Fallible Python code is modelled with `Except PyErr`; each `assert` site
  keeps its exact message text, and a true division by zero raises
  `ZeroDivisionError` as in Python.
* A Python dict built by inserting keys inside a loop is modelled as an
  association list in insertion order; duplicate keys receive equal values
  in every use below, so lookups agree with the dict.
-/

namespace OmniXAI

/-- The Python exception outcomes the module can produce. -/
inductive PyErr where
  | assertionError (msg : String)
  | zeroDivisionError
  | valueError (msg : String)
  | keyError (key : String)
deriving DecidableEq

/-- Python `/` on numbers: raises `ZeroDivisionError` on a zero denominator. -/
def pyDiv (a b : ℚ) : Except PyErr ℚ :=
  if b = 0 then .error .zeroDivisionError else .ok (a / b)

/-- `len([p for p in ps if p == label])`. -/
def countEq (label : Int) (ps : List Int) : Nat :=
  (ps.filter (fun p => p == label)).length

/-- The body of `_dpl`'s label loop:
`na / len(pred_a) - nb / len(pred_b)`, divisions in source order. -/
def dplBody (pred_a pred_b : List Int) (label : Int) : Except PyErr ℚ :=
  pyDiv (countEq label pred_a) pred_a.length >>= fun x =>
  pyDiv (countEq label pred_b) pred_b.length >>= fun y =>
  .ok (x - y)

/-- The body of `_di`'s label loop:
`qa = na / len(pred_a)`, `qb = nb / len(pred_b)`, result `qb / (qa + 1e-8)`,
divisions in source order. -/
def diBody (pred_a pred_b : List Int) (label : Int) : Except PyErr ℚ :=
  pyDiv (countEq label pred_a) pred_a.length >>= fun qa =>
  pyDiv (countEq label pred_b) pred_b.length >>= fun qb =>
  pyDiv qb (qa + 1 / 100000000)

/-- The `for label in labels` loop of a metric function, building
`metrics[label]` in insertion order; a raised exception aborts the loop. -/
def metricLoop (f : Int → Except PyErr ℚ) : List Int → Except PyErr (List (Int × ℚ))
  | [] => .ok []
  | l :: ls =>
    f l >>= fun v =>
    metricLoop f ls >>= fun rest =>
    .ok ((l, v) :: rest)

/-- `BiasAnalyzer._dpl(targ_a, targ_b, pred_a, pred_b, labels)`:
difference in proportions in predicted labels.  The two `targ` arguments
appear in the Python signature but are never read by the body. -/
def _dpl (targ_a targ_b : List Int) (pred_a pred_b : List Int) (labels : List Int) :
    Except PyErr (List (Int × ℚ)) :=
  metricLoop (dplBody pred_a pred_b) labels

/-- `BiasAnalyzer._di(targ_a, targ_b, pred_a, pred_b, labels)`:
disparate impact.  The two `targ` arguments appear in the Python signature
but are never read by the body. -/
def _di (targ_a targ_b : List Int) (pred_a pred_b : List Int) (labels : List Int) :
    Except PyErr (List (Int × ℚ)) :=
  metricLoop (diBody pred_a pred_b) labels

/-- One `feat_value2idx[feat].append(i)` step on the association-list model
of the `defaultdict(list)`: append to the entry holding the key, or add a
new key at the end (dict insertion order). -/
def addIdx : List (Int × List Nat) → Int → Nat → List (Int × List Nat)
  | [], f, i => [(f, [i])]
  | (g, gs) :: rest, f, i =>
    if g = f then (g, gs ++ [i]) :: rest else (g, gs) :: addIdx rest f i

/-- `feat_value2idx[f]` read as a defaultdict: an absent key reads as `[]`.
Association-list lookup; keys of the built dict are distinct, so this is
the dict lookup. -/
def getIdxs : List (Int × List Nat) → Int → List Nat
  | [], _ => []
  | (g, gs) :: rest, f => if g = f then gs else getIdxs rest f

/-- `feat in feat_value2idx`: key membership. -/
def keyMem (f : Int) (m : List (Int × List Nat)) : Bool :=
  m.any (fun p => p.1 == f)

/-- The `for i, feat in enumerate(self.data[feature_column].values)` loop
building `feat_value2idx`, with `i` the index of the next row. -/
def fv2iAux (m : List (Int × List Nat)) (i : Nat) : List Int → List (Int × List Nat)
  | [] => m
  | a :: rest => fv2iAux (addIdx m a i) (i + 1) rest

/-- The `feat_value2idx` mapping built by `explain` over the chosen
feature column. -/
def featValue2idx (col : List Int) : List (Int × List Nat) := fv2iAux [] 0 col

/-- Group A in one-value-vs-rest mode: `feat_value2idx[value]`. -/
def groupAOf (col : List Int) (v : Int) : List Nat :=
  getIdxs (featValue2idx col) v

/-- Group B in one-value-vs-rest mode: the concatenation, in dict order, of
the index lists of every key different from `value`. -/
def groupBOf (col : List Int) (v : Int) : List Nat :=
  (featValue2idx col).foldl (fun acc p => if p.1 ≠ v then acc ++ p.2 else acc) []

/-- `target_value_or_threshold`: `None`, a scalar, or a list-like value;
`_get_labels` wraps a scalar into a one-element list. -/
inductive LabelArg where
  | scalar (l : Int)
  | arr (ls : List Int)

/-- `feature_value_or_groups`: a single scalar, or a list/tuple of lists of
feature values (the source distinguishes the two shapes by `isinstance`). -/
inductive FeatureArg where
  | single (v : Int)
  | lists (gs : List (List Int))

/-- The analyzer state after `__init__`: `self.data` (feature columns),
`self.targs`, `self.preds` and `self.all_labels`. -/
structure BiasState where
  columns : List (String × List Int)
  targs : List Int
  preds : List Int
  all_labels : List Int

/-- What a call to `explain` produces: the dict `res` that gets printed,
and the Python return value.  The body of `explain` has no `return`
statement, so the return value is always `None` (`ret = none`). -/
structure ExplainEffect where
  printed : List (String × List (Int × ℚ))
  ret : Option (List (String × List (Int × ℚ)))
deriving DecidableEq

/-- `self.data[name]` (also used for the `name in self.data` test). -/
def lookupCol (cols : List (String × List Int)) (name : String) : Option (List Int) :=
  (cols.find? (fun c => c.1 == name)).map Prod.snd

/-- The `for feat in group: assert feat in feat_value2idx` loop; the first
missing value raises, naming that value (the source message abbreviated
to drop the surrounding f-string quotes). -/
def checkFeats (m : List (Int × List Nat)) : List Int → Except PyErr Unit
  | [] => .ok ()
  | f :: rest =>
    match keyMem f m with
    | true => checkFeats m rest
    | false => .error (.assertionError ("Feature " ++ toString f ++ " does not exist."))

/-- `_get_labels` label resolution: an absent selector defaults to
`self.all_labels`; a scalar is wrapped into a singleton list. -/
def resolveLabels (st : BiasState) : Option LabelArg → List Int
  | none => st.all_labels
  | some (.scalar l) => [l]
  | some (.arr ls) => ls

/-- Numpy fancy indexing of a cached 1-D array by a row-index list (all
indices produced by the grouping are in range, so the default is inert). -/
def sliceAt (xs : List Int) (idxs : List Nat) : List Int :=
  idxs.map (fun i => xs.getD i 0)

/-- Abbreviation of the source's two-list shape assertion message (the
original text contains quoted example values). -/
def groupsShapeMsg : String :=
  "feature_value_or_groups is either a single value or a list/tuple of two lists indicating two feature groups"

/-- `BiasAnalyzer.explain(feature_column, feature_value_or_groups,
target_value_or_threshold)`, mirrored step by step: column-presence
assert, two-list shape assert, `feat_value2idx` construction,
referenced-value asserts, group resolution, slicing through
`_get_labels`, then the metrics in the fixed order `DPL`, `DI`.  The
result dict `res` is printed (`printed` field); the function then falls
off its end, returning `None` (`ret := none`). -/
def shapeCheck : FeatureArg → Except PyErr Unit
  | .single _ => .ok ()
  | .lists gs =>
    if gs.length = 2 then .ok () else .error (.assertionError groupsShapeMsg)

/-- The referenced-value asserts of `explain`: both lists in the two-list
form (first list fully checked first), the single value otherwise. -/
def refCheck (m : List (Int × List Nat)) : FeatureArg → Except PyErr Unit
  | .single v => checkFeats m [v]
  | .lists gs => checkFeats m (gs.getD 0 []) >>= fun _ => checkFeats m (gs.getD 1 [])

/-- Resolution of `group_a`: the rows of the single value, or the
concatenated rows of the first list's values. -/
def groupA (m : List (Int × List Nat)) : FeatureArg → List Nat
  | .single v => getIdxs m v
  | .lists gs => (gs.getD 0 []).foldl (fun acc f => acc ++ getIdxs m f) []

/-- Resolution of `group_b`: the rows of every other key in dict order, or
the concatenated rows of the second list's values. -/
def groupB (m : List (Int × List Nat)) : FeatureArg → List Nat
  | .single v => m.foldl (fun acc p => if p.1 ≠ v then acc ++ p.2 else acc) []
  | .lists gs => (gs.getD 1 []).foldl (fun acc f => acc ++ getIdxs m f) []

def explain (st : BiasState) (feature_column : String) (arg : FeatureArg)
    (tv : Option LabelArg) : Except PyErr ExplainEffect :=
  match lookupCol st.columns feature_column with
  | none => .error (.assertionError
      ("Feature column " ++ feature_column ++ " does not exist."))
  | some col =>
    shapeCheck arg >>= fun _ =>
    refCheck (featValue2idx col) arg >>= fun _ =>
    let group_a := groupA (featValue2idx col) arg
    let group_b := groupB (featValue2idx col) arg
    let labels := resolveLabels st tv
    let targ_a := sliceAt st.targs group_a
    let targ_b := sliceAt st.targs group_b
    let pred_a := sliceAt st.preds group_a
    let pred_b := sliceAt st.preds group_b
    _dpl targ_a targ_b pred_a pred_b labels >>= fun dplRes =>
    _di targ_a targ_b pred_a pred_b labels >>= fun diRes =>
    .ok { printed := [("DPL", dplRes), ("DI", diRes)], ret := none }

/-- The spec scenario state: 4 rows, feature column `[0, 0, 1, 1]`
(codes for `X, X, Y, Y`), targets `[0, 1, 0, 1]`, a perfect classifier,
label universe `[0, 1]`. -/
def exSt : BiasState :=
  { columns := [("feat", [0, 0, 1, 1])]
    targs := [0, 1, 0, 1]
    preds := [0, 1, 0, 1]
    all_labels := [0, 1] }

/-- The effect of the concrete successful run on `exSt`: both `DPL`
entries are `0`, both `DI` entries are `(1/2) / (1/2 + 1e-8)`, and the
Python return value is `None`. -/
def exEff : ExplainEffect :=
  { printed :=
      [("DPL", [(0, 0), (1, 0)]),
       ("DI", [(0, 50000000 / 50000001), (1, 50000000 / 50000001)])]
    ret := none }

/-- The list of feature values referenced by `feature_value_or_groups`, in
the order the source's asserts scan them. -/
def referencedFeats : FeatureArg → List Int
  | .single v => [v]
  | .lists gs => (gs.getD 0 []) ++ (gs.getD 1 [])

/-- The successive slices `X[i : i + batch_size]` taken by `_predict`'s
loop, for batch size `b + 1` (a batch size of `0` never reaches this:
`range` raises, handled in the `_predict` functions). -/
def chunks {α : Type} (b : Nat) : List α → List (List α)
  | [] => []
  | x :: xs => ((x :: xs).take (b + 1)) :: chunks b ((x :: xs).drop (b + 1))
termination_by l => l.length
decreasing_by
  simp
  omega

/-- Maximum of a score vector (`0` for the empty vector, never used on a
non-degenerate classifier output). -/
def listMax : List ℚ → ℚ
  | [] => 0
  | [x] => x
  | x :: y :: ys => max x (listMax (y :: ys))

/-- `np.argmax` over one row of scores: the index of the first occurrence
of the maximum. -/
def argmax : List ℚ → Nat
  | [] => 0
  | [_] => 0
  | x :: y :: ys => if x < listMax (y :: ys) then argmax (y :: ys) + 1 else 0

/-- `BiasAnalyzer._predict` in classification mode: apply
`predict_function` to successive batches, `np.concatenate` the per-batch
2-D score arrays in order, then take `np.argmax(z, axis=1)` per row.
A `batch_size` of `0` makes `range` raise; an empty dataset makes
`np.concatenate([])` raise. -/
def predictCls {α : Type} (f : List α → List (List ℚ)) (X : List α)
    (batch_size : Nat) : Except PyErr (List Nat) :=
  if batch_size = 0 then .error (.valueError "range() arg 3 must not be zero")
  else if X.isEmpty then
    .error (.valueError "need at least one array to concatenate")
  else .ok ((((chunks (batch_size - 1) X).map f).flatten).map argmax)

/-- `BiasAnalyzer._predict` in regression mode: as above but the
concatenated output is flattened (`z.flatten()`, row-major). -/
def predictReg {α : Type} (f : List α → List (List ℚ)) (X : List α)
    (batch_size : Nat) : Except PyErr (List ℚ) :=
  if batch_size = 0 then .error (.valueError "range() arg 3 must not be zero")
  else if X.isEmpty then
    .error (.valueError "need at least one array to concatenate")
  else .ok ((((chunks (batch_size - 1) X).map f).flatten).flatten)

/-- The spec's wording for the stored prediction of a row: the index of
the maximum score, ties broken by the lowest (first occurring) index. -/
def FirstMaxAt (v : List ℚ) (i : Nat) : Prop :=
  i < v.length ∧ (∀ j < v.length, v.getD j 0 ≤ v.getD i 0) ∧
    ∀ j < i, v.getD j 0 < v.getD i 0

/-- The tabular container at the interface `__init__` uses: named columns
and the designated target column name (`None` when unset). -/
structure Tabular where
  columns : List (String × List Int)
  target_column : Option String
deriving DecidableEq

/-- `to_pd(copy=False)[name]` / `get_target_column()` value access. -/
def getColumn (td : Tabular) (name : String) : Option (List Int) :=
  lookupCol td.columns name

/-- `remove_target_column()`. -/
def removeTargetColumn (td : Tabular) : Tabular :=
  { columns := match td.target_column with
      | none => td.columns
      | some t => td.columns.filter (fun c => c.1 != t)
    target_column := none }

/-- The membership test on line 52 of the source,
`to_pd(copy=False)[target] in [np.int, np.int32, np.int64, np.float,
np.float32, np.float64]`.  Python's `in` evaluates `series == np.int`
(elementwise: every entry `False`, a number never equals a type object)
and truth-tests the resulting boolean Series; pandas defines truth only
for a one-element Series and raises
`ValueError: The truth value of a Series is ambiguous` otherwise.  So the
test yields `False` on a one-row column and raises on any other length —
it never inspects the dtype. -/
def seriesInDtypeList (s : List Int) : Except PyErr Bool :=
  if s.length = 1 then .ok false
  else .error (.valueError "The truth value of a Series is ambiguous.")

/-- The data/targets pair `__init__` establishes before caching
predictions. -/
structure InitData where
  data : Tabular
  training_targets : List Int
deriving DecidableEq

/-- `BiasAnalyzer.__init__` (lines 44-56): the mode assert, then, when
`training_targets` is `None`, the target-column presence assert (a
missing or empty name is falsy), the line-52 membership assert, and
extraction/removal of the target column.  `predict_function` is a real
function here, so its non-`None` assert always passes; the subsequent
prediction caching is modelled by `predictCls` / `predictReg`. -/
def biasInit (training_data : Tabular) (mode : String)
    (training_targets : Option (List Int)) : Except PyErr InitData :=
  if mode ≠ "classification" ∧ mode ≠ "regression" then
    .error (.assertionError
      "`BiasAnalyzer` only supports classification and regression models.")
  else
    match training_targets with
    | some ts => .ok { data := training_data, training_targets := ts }
    | none =>
      match training_data.target_column with
      | none => .error (.assertionError
          "`training_data` has no label/target column. Please set `training_targets`")
      | some t =>
        if t = "" then
          .error (.assertionError
            "`training_data` has no label/target column. Please set `training_targets`")
        else
          match getColumn training_data t with
          | none => .error (.keyError t)
          | some tcol =>
            seriesInDtypeList tcol >>= fun b =>
            if b then
              .ok { data := removeTargetColumn training_data,
                    training_targets := tcol }
            else
              .error (.assertionError
                "The targets/labels in `training_data` must be either int or float.")

@[simp]
theorem ok_bind {α β : Type} (a : α) (f : α → Except PyErr β) :
    (Except.ok a >>= f) = f a := rfl

@[simp]
theorem error_bind {α β : Type} (e : PyErr) (f : α → Except PyErr β) :
    ((Except.error e : Except PyErr α) >>= f) = Except.error e := rfl

@[simp]
theorem map_ok {α β : Type} (f : α → β) (a : α) :
    (Except.ok a : Except PyErr α).map f = Except.ok (f a) := rfl

@[simp]
theorem map_error {α β : Type} (f : α → β) (e : PyErr) :
    (Except.error e : Except PyErr α).map f = Except.error e := rfl

theorem metricLoop_ok (f : Int → Except PyErr ℚ) (g : Int → ℚ) :
    ∀ ls : List Int, (∀ l ∈ ls, f l = .ok (g l)) →
      metricLoop f ls = .ok (ls.map fun l => (l, g l)) := by
  intro ls
  induction ls with
  | nil => intro _; rfl
  | cons l ls ih =>
    intro h
    have hl := h l (List.mem_cons_self l ls)
    have hrest := ih fun x hx => h x (List.mem_cons_of_mem l hx)
    simp [metricLoop, hl, hrest]

theorem find_map_self (g : Int → ℚ) (l : Int) :
    ∀ ls : List Int, l ∈ ls →
      (ls.map fun x => (x, g x)).find? (fun p => p.1 == l) = some (l, g l) := by
  intro ls
  induction ls with
  | nil => intro h; cases h
  | cons x xs ih =>
    intro h
    by_cases hx : x = l
    · subst hx; simp [List.find?]
    · have hmem : l ∈ xs := by
        cases h with
        | head => exact absurd rfl hx
        | tail _ h2 => exact h2
      have hbeq : (x == l) = false := by simp [hx]
      simp [List.find?, hbeq, ih hmem]

theorem length_cast_ne_zero {α : Type} (l : List α) (h : l ≠ []) :
    ((l.length : ℚ)) ≠ 0 := by
  have : l.length ≠ 0 := fun h0 => h (List.length_eq_zero.mp h0)
  exact_mod_cast this

/-- Under non-empty groups, `diBody` succeeds with the exact formula value. -/
theorem diBody_ok (pred_a pred_b : List Int) (label : Int)
    (ha : pred_a ≠ []) (hb : pred_b ≠ []) :
    diBody pred_a pred_b label =
      .ok (((countEq label pred_b : ℚ) / pred_b.length) /
        ((countEq label pred_a : ℚ) / pred_a.length + 1 / 100000000)) := by
  have hqa0 : (0 : ℚ) ≤ (countEq label pred_a : ℚ) / pred_a.length :=
    div_nonneg (Nat.cast_nonneg _) (Nat.cast_nonneg _)
  have hden : ((countEq label pred_a : ℚ) / pred_a.length + (100000000 : ℚ)⁻¹) ≠ 0 := by
    positivity
  simp [diBody, pyDiv, length_cast_ne_zero _ ha, length_cast_ne_zero _ hb, hden]

/-- Under non-empty groups, `dplBody` succeeds with the exact formula value. -/
theorem dplBody_ok (pred_a pred_b : List Int) (label : Int)
    (ha : pred_a ≠ []) (hb : pred_b ≠ []) :
    dplBody pred_a pred_b label =
      .ok ((countEq label pred_a : ℚ) / pred_a.length -
        (countEq label pred_b : ℚ) / pred_b.length) := by
  simp [dplBody, pyDiv, length_cast_ne_zero _ ha, length_cast_ne_zero _ hb]

/-- C4: for non-empty groups and a label `l` in `labels`, the `DI` metric
maps `l` to exactly `qb / (qa + 1e-8)`, where
`qa = count(pred_a == l) / len(pred_a)` and
`qb = count(pred_b == l) / len(pred_b)`; the ratio direction is B over A. -/
theorem C4_di_formula (targ_a targ_b pred_a pred_b labels : List Int) (l : Int)
    (ha : pred_a ≠ []) (hb : pred_b ≠ []) (hl : l ∈ labels) :
    (_di targ_a targ_b pred_a pred_b labels).map
        (fun m => m.find? (fun p => p.1 == l)) =
      .ok (some (l,
        ((countEq l pred_b : ℚ) / pred_b.length) /
          ((countEq l pred_a : ℚ) / pred_a.length + 1 / 100000000))) := by
  have hloop := metricLoop_ok (diBody pred_a pred_b)
    (fun x => ((countEq x pred_b : ℚ) / pred_b.length) /
      ((countEq x pred_a : ℚ) / pred_a.length + 1 / 100000000))
    labels (fun x _ => diBody_ok pred_a pred_b x ha hb)
  simp [_di, hloop, find_map_self _ _ _ hl]

/-- Witness for C4 at a concrete input. -/
theorem C4_di_formula_witness :
    (_di [] [] [0, 1] [1, 1] [1]).map
        (fun m => m.find? (fun p => p.1 == 1)) =
      .ok (some (1,
        ((countEq 1 [1, 1] : ℚ) / (List.length [1, 1])) /
          ((countEq 1 [0, 1] : ℚ) / (List.length [0, 1]) + 1 / 100000000))) :=
  C4_di_formula [] [] [0, 1] [1, 1] [1] 1 (by decide) (by decide) (by decide)

/-- C10: `_dpl` and `_di` read only the predictions and the labels; the
true targets `targ_a`, `targ_b` never influence either metric. -/
theorem C10_targets_never_read (ta tb ta' tb' pa pb ls : List Int) :
    _dpl ta tb pa pb ls = _dpl ta' tb' pa pb ls ∧
    _di ta tb pa pb ls = _di ta' tb' pa pb ls :=
  ⟨rfl, rfl⟩

/-- Counterexample to C2: with an empty group A, `_dpl` evaluates to the
raw `ZeroDivisionError` arithmetic fault; no `EmptyGroup` guard exists in
the code. -/
theorem C2_counterexample :
    _dpl [] [] [] [0] [0] = .error .zeroDivisionError := by
  simp [_dpl, metricLoop, dplBody, pyDiv, countEq]

/-- C2 (amended): whenever one of the prediction groups is empty and the
label set is non-empty, `_dpl` propagates a raw `ZeroDivisionError`. -/
theorem C2_amended_raw_fault (ta tb pa pb ls : List Int)
    (hls : ls ≠ []) (h : pa = [] ∨ pb = []) :
    _dpl ta tb pa pb ls = .error .zeroDivisionError := by
  obtain ⟨l, ls', rfl⟩ : ∃ l ls', ls = l :: ls' := by
    cases ls with
    | nil => exact absurd rfl hls
    | cons l ls' => exact ⟨l, ls', rfl⟩
  cases h with
  | inl hpa =>
    subst hpa
    simp [_dpl, metricLoop, dplBody, pyDiv, countEq]
  | inr hpb =>
    subst hpb
    by_cases hpa : pa = []
    · subst hpa
      simp [_dpl, metricLoop, dplBody, pyDiv, countEq]
    · simp [_dpl, metricLoop, dplBody, pyDiv, countEq,
        length_cast_ne_zero _ hpa]

/-- Witness for the amended C2 at a concrete input. -/
theorem C2_amended_raw_fault_witness :
    _dpl [] [] [] [0] [5] = .error .zeroDivisionError :=
  C2_amended_raw_fault [] [] [] [0] [5] (by decide) (Or.inl rfl)

/-- C9: when every prediction in both (non-empty) groups equals the fixed
label `l`, and `l` is in the evaluated label set, `DPL(l) = 0` and
`DI(l) = 1 / (1 + 1e-8)`, which lies within `1e-8` of `1`. -/
theorem C9_constant_classifier (targ_a targ_b pred_a pred_b labels : List Int) (l : Int)
    (ha : pred_a ≠ []) (hb : pred_b ≠ [])
    (hca : ∀ p ∈ pred_a, p = l) (hcb : ∀ p ∈ pred_b, p = l) (hl : l ∈ labels) :
    (_dpl targ_a targ_b pred_a pred_b labels).map
        (fun m => m.find? (fun p => p.1 == l)) = .ok (some (l, 0)) ∧
    (_di targ_a targ_b pred_a pred_b labels).map
        (fun m => m.find? (fun p => p.1 == l)) =
      .ok (some (l, 1 / (1 + 1 / 100000000))) ∧
    |(1 : ℚ) / (1 + 1 / 100000000) - 1| < 1 / 100000000 := by
  have hcnta : countEq l pred_a = pred_a.length := by
    unfold countEq
    rw [List.filter_eq_self.mpr]
    intro p hp
    simp [hca p hp]
  have hcntb : countEq l pred_b = pred_b.length := by
    unfold countEq
    rw [List.filter_eq_self.mpr]
    intro p hp
    simp [hcb p hp]
  have hqa : (countEq l pred_a : ℚ) / pred_a.length = 1 := by
    rw [hcnta]; exact div_self (length_cast_ne_zero _ ha)
  have hqb : (countEq l pred_b : ℚ) / pred_b.length = 1 := by
    rw [hcntb]; exact div_self (length_cast_ne_zero _ hb)
  refine ⟨?_, ?_, ?_⟩
  · have hloop := metricLoop_ok (dplBody pred_a pred_b)
      (fun x => (countEq x pred_a : ℚ) / pred_a.length -
        (countEq x pred_b : ℚ) / pred_b.length)
      labels (fun x _ => dplBody_ok pred_a pred_b x ha hb)
    simp [_dpl, hloop, find_map_self _ _ _ hl, hqa, hqb]
  · have hloop := metricLoop_ok (diBody pred_a pred_b)
      (fun x => ((countEq x pred_b : ℚ) / pred_b.length) /
        ((countEq x pred_a : ℚ) / pred_a.length + 1 / 100000000))
      labels (fun x _ => diBody_ok pred_a pred_b x ha hb)
    simp [_di, hloop, find_map_self _ _ _ hl, hqa, hqb]
  · rw [abs_lt]
    constructor <;> norm_num

/-- Witness for C9 at a concrete input. -/
theorem C9_constant_classifier_witness :
    (_dpl [] [] [2, 2] [2] [2]).map
        (fun m => m.find? (fun p => p.1 == 2)) = .ok (some (2, 0)) ∧
    (_di [] [] [2, 2] [2] [2]).map
        (fun m => m.find? (fun p => p.1 == 2)) =
      .ok (some (2, 1 / (1 + 1 / 100000000))) ∧
    |(1 : ℚ) / (1 + 1 / 100000000) - 1| < 1 / 100000000 :=
  C9_constant_classifier [] [] [2, 2] [2] [2] 2 (by decide) (by decide)
    (by decide) (by decide) (by decide)

theorem getIdxs_addIdx (g : Int) (i : Nat) (f : Int) :
    ∀ m : List (Int × List Nat),
      getIdxs (addIdx m g i) f =
        if f = g then getIdxs m f ++ [i] else getIdxs m f := by
  intro m
  induction m with
  | nil =>
    by_cases hfg : f = g
    · subst hfg; simp [addIdx, getIdxs]
    · have hgf : ¬g = f := fun h => hfg h.symm
      simp [addIdx, getIdxs, hfg, hgf]
  | cons hd tl ih =>
    rcases hd with ⟨h1, h2⟩
    rw [addIdx]
    by_cases hg : h1 = g
    · rw [if_pos hg]
      by_cases hf : h1 = f
      · have hfg : f = g := hf.symm.trans hg
        simp [getIdxs, hf, hfg]
      · have hfg : f ≠ g := fun h => hf (hg.trans h.symm)
        simp [getIdxs, hf, hfg]
    · rw [if_neg hg]
      by_cases hf : h1 = f
      · have hfg : f ≠ g := fun h => hg (hf.trans h)
        simp [getIdxs, hf, hfg]
      · simp [getIdxs, hf, ih]

theorem mem_getIdxs_fv2iAux (f : Int) (j : Nat) :
    ∀ (col : List Int) (m : List (Int × List Nat)) (i : Nat),
      j ∈ getIdxs (fv2iAux m i col) f ↔
        j ∈ getIdxs m f ∨ (i ≤ j ∧ col.get? (j - i) = some f) := by
  intro col
  induction col with
  | nil =>
    intro m i
    rw [fv2iAux]
    simp
  | cons a rest ih =>
    intro m i
    rw [fv2iAux, ih, getIdxs_addIdx]
    by_cases hfa : f = a
    · rw [if_pos hfa]
      constructor
      · rintro (hm | ⟨hle, hget⟩)
        · rcases List.mem_append.mp hm with hm1 | hm2
          · exact Or.inl hm1
          · have hji : j = i := by simpa using hm2
            subst hji
            refine Or.inr ⟨le_refl _, ?_⟩
            rw [Nat.sub_self, List.get?_cons_zero, hfa]
        · refine Or.inr ⟨by omega, ?_⟩
          obtain ⟨k, hk⟩ : ∃ k, j - i = k + 1 := ⟨j - (i + 1), by omega⟩
          rw [hk, List.get?_cons_succ, show k = j - (i + 1) by omega]
          exact hget
      · rintro (hm | ⟨hle, hget⟩)
        · exact Or.inl (List.mem_append.mpr (Or.inl hm))
        · rcases Nat.eq_or_lt_of_le hle with heq | hlt
          · refine Or.inl (List.mem_append.mpr (Or.inr ?_))
            rw [← heq]
            simp
          · refine Or.inr ⟨by omega, ?_⟩
            obtain ⟨k, hk⟩ : ∃ k, j - i = k + 1 := ⟨j - (i + 1), by omega⟩
            rw [hk, List.get?_cons_succ] at hget
            rw [show j - (i + 1) = k by omega]
            exact hget
    · rw [if_neg hfa]
      constructor
      · rintro (hm | ⟨hle, hget⟩)
        · exact Or.inl hm
        · refine Or.inr ⟨by omega, ?_⟩
          obtain ⟨k, hk⟩ : ∃ k, j - i = k + 1 := ⟨j - (i + 1), by omega⟩
          rw [hk, List.get?_cons_succ, show k = j - (i + 1) by omega]
          exact hget
      · rintro (hm | ⟨hle, hget⟩)
        · exact Or.inl hm
        · rcases Nat.eq_or_lt_of_le hle with heq | hlt
          · exfalso
            rw [show j - i = 0 by omega, List.get?_cons_zero] at hget
            exact hfa (Option.some.inj hget).symm
          · refine Or.inr ⟨by omega, ?_⟩
            obtain ⟨k, hk⟩ : ∃ k, j - i = k + 1 := ⟨j - (i + 1), by omega⟩
            rw [hk, List.get?_cons_succ] at hget
            rw [show j - (i + 1) = k by omega]
            exact hget

theorem addIdx_sound (g : Int) (i : Nat) :
    ∀ (m : List (Int × List Nat)), ∀ p ∈ addIdx m g i, ∀ j ∈ p.2,
      (∃ q ∈ m, q.1 = p.1 ∧ j ∈ q.2) ∨ (j = i ∧ p.1 = g) := by
  intro m
  induction m with
  | nil =>
    intro p hp j hj
    rw [addIdx, List.mem_singleton] at hp
    subst hp
    rw [List.mem_singleton] at hj
    exact Or.inr ⟨hj, rfl⟩
  | cons hd tl ih =>
    rcases hd with ⟨h1, h2⟩
    intro p hp j hj
    by_cases hg : h1 = g
    · rw [addIdx, if_pos hg] at hp
      rcases List.mem_cons.mp hp with hp1 | hp2
      · subst hp1
        rcases List.mem_append.mp hj with hj1 | hj2
        · exact Or.inl ⟨(h1, h2), List.mem_cons_self _ _, rfl, hj1⟩
        · exact Or.inr ⟨List.mem_singleton.mp hj2, hg⟩
      · exact Or.inl ⟨p, List.mem_cons_of_mem _ hp2, rfl, hj⟩
    · rw [addIdx, if_neg hg] at hp
      rcases List.mem_cons.mp hp with hp1 | hp2
      · subst hp1
        exact Or.inl ⟨(h1, h2), List.mem_cons_self _ _, rfl, hj⟩
      · rcases ih p hp2 j hj with ⟨q, hq, hq1, hq2⟩ | hnew
        · exact Or.inl ⟨q, List.mem_cons_of_mem _ hq, hq1, hq2⟩
        · exact Or.inr hnew

theorem fv2iAux_sound (P : Nat → Int → Prop) :
    ∀ (col : List Int) (m : List (Int × List Nat)) (i : Nat),
      (∀ p ∈ m, ∀ j ∈ p.2, P j p.1) →
      (∀ k a, col.get? k = some a → P (i + k) a) →
      ∀ p ∈ fv2iAux m i col, ∀ j ∈ p.2, P j p.1 := by
  intro col
  induction col with
  | nil => intro m i hm _ p hp; exact hm p hp
  | cons a rest ih =>
    intro m i hm hcol p hp
    rw [fv2iAux] at hp
    refine ih (addIdx m a i) (i + 1) ?_ ?_ p hp
    · intro q hq j hj
      rcases addIdx_sound a i m q hq j hj with ⟨r, hr, hr1, hr2⟩ | ⟨hji, hqa⟩
      · exact hr1 ▸ hm r hr j hr2
      · subst hji
        rw [hqa]
        have h0 := hcol 0 a (by simp)
        simpa using h0
    · intro k b hk
      have hk1 := hcol (k + 1) b (by simpa using hk)
      simpa [Nat.add_assoc, Nat.add_comm 1 k] using hk1

/-- Every row index stored in `feat_value2idx` points at a row whose
feature value is the entry's key. -/
theorem featValue2idx_sound (col : List Int) :
    ∀ p ∈ featValue2idx col, ∀ j ∈ p.2, col.get? j = some p.1 := by
  refine fv2iAux_sound (fun j w => col.get? j = some w) col [] 0 ?_ ?_
  · intro p hp; cases hp
  · intro k a hk; simpa using hk

theorem mem_groupAOf (col : List Int) (v : Int) (j : Nat) :
    j ∈ groupAOf col v ↔ col.get? j = some v := by
  have h := mem_getIdxs_fv2iAux v j col [] 0
  rw [groupAOf, featValue2idx, h]
  simp [getIdxs]

theorem exists_entry_of_mem_getIdxs :
    ∀ (m : List (Int × List Nat)) (w : Int) (j : Nat),
      j ∈ getIdxs m w → ∃ q ∈ m, q.1 = w ∧ j ∈ q.2 := by
  intro m
  induction m with
  | nil => intro w j h; cases h
  | cons hd tl ih =>
    intro w j h
    rcases hd with ⟨g, gs⟩
    rw [getIdxs] at h
    by_cases hg : g = w
    · rw [if_pos hg] at h
      exact ⟨(g, gs), List.mem_cons_self _ _, hg, h⟩
    · rw [if_neg hg] at h
      obtain ⟨q, hq, hq1, hq2⟩ := ih w j h
      exact ⟨q, List.mem_cons_of_mem _ hq, hq1, hq2⟩

theorem mem_foldl_groupB (v : Int) (j : Nat) :
    ∀ (m : List (Int × List Nat)) (acc : List Nat),
      j ∈ m.foldl (fun acc p => if p.1 ≠ v then acc ++ p.2 else acc) acc ↔
        j ∈ acc ∨ ∃ p ∈ m, p.1 ≠ v ∧ j ∈ p.2 := by
  intro m
  induction m with
  | nil => intro acc; simp
  | cons hd tl ih =>
    intro acc
    rw [List.foldl_cons, ih]
    by_cases hv : hd.1 ≠ v
    · rw [if_pos hv]
      constructor
      · rintro (ha | ⟨p, hp, hp1, hp2⟩)
        · rcases List.mem_append.mp ha with ha1 | ha2
          · exact Or.inl ha1
          · exact Or.inr ⟨hd, List.mem_cons_self _ _, hv, ha2⟩
        · exact Or.inr ⟨p, List.mem_cons_of_mem _ hp, hp1, hp2⟩
      · rintro (ha | ⟨p, hp, hp1, hp2⟩)
        · exact Or.inl (List.mem_append.mpr (Or.inl ha))
        · rcases List.mem_cons.mp hp with hp0 | hptl
          · subst hp0; exact Or.inl (List.mem_append.mpr (Or.inr hp2))
          · exact Or.inr ⟨p, hptl, hp1, hp2⟩
    · rw [if_neg hv]
      push_neg at hv
      constructor
      · rintro (ha | ⟨p, hp, hp1, hp2⟩)
        · exact Or.inl ha
        · exact Or.inr ⟨p, List.mem_cons_of_mem _ hp, hp1, hp2⟩
      · rintro (ha | ⟨p, hp, hp1, hp2⟩)
        · exact Or.inl ha
        · rcases List.mem_cons.mp hp with hp0 | hptl
          · subst hp0; exact absurd hv hp1
          · exact Or.inr ⟨p, hptl, hp1, hp2⟩

theorem mem_groupBOf (col : List Int) (v : Int) (j : Nat) :
    j ∈ groupBOf col v ↔ ∃ w, col.get? j = some w ∧ w ≠ v := by
  rw [groupBOf, mem_foldl_groupB]
  simp only [List.not_mem_nil, false_or]
  constructor
  · rintro ⟨p, hp, hp1, hp2⟩
    exact ⟨p.1, featValue2idx_sound col p hp j hp2, hp1⟩
  · rintro ⟨w, hw, hwv⟩
    have hj : j ∈ getIdxs (featValue2idx col) w := by
      rw [featValue2idx, mem_getIdxs_fv2iAux]
      refine Or.inr ⟨Nat.zero_le _, ?_⟩
      simpa using hw
    obtain ⟨q, hq, hq1, hq2⟩ := exists_entry_of_mem_getIdxs _ w j hj
    exact ⟨q, hq, hq1 ▸ hwv, hq2⟩

/-- C5: in one-value-vs-rest mode, group A and group B are disjoint and
together cover exactly the row indices of the dataset: every row belongs
to exactly one of the two groups. -/
theorem C5_one_vs_rest_partition (col : List Int) (v : Int) (hv : v ∈ col) (i : Nat) :
    ((i ∈ groupAOf col v ∨ i ∈ groupBOf col v) ↔ i < col.length) ∧
    ¬(i ∈ groupAOf col v ∧ i ∈ groupBOf col v) := by
  constructor
  · rw [mem_groupAOf, mem_groupBOf]
    constructor
    · rintro (h | ⟨w, hw, _⟩)
      · exact (List.get?_eq_some.mp h).1
      · exact (List.get?_eq_some.mp hw).1
    · intro hi
      rcases hget : col.get? i with _ | w
      · rw [List.get?_eq_none] at hget; omega
      · by_cases hwv : w = v
        · refine Or.inl ?_
          rw [hwv]
        · exact Or.inr ⟨w, rfl, hwv⟩
  · rw [mem_groupAOf, mem_groupBOf]
    rintro ⟨ha, w, hw, hwv⟩
    rw [ha] at hw
    exact hwv (Option.some.inj hw).symm

/-- Witness for C5 at a concrete input. -/
theorem C5_one_vs_rest_partition_witness :
    ((2 ∈ groupAOf [0, 0, 1, 1] 0 ∨ 2 ∈ groupBOf [0, 0, 1, 1] 0) ↔
      2 < List.length [0, 0, 1, 1]) ∧
    ¬(2 ∈ groupAOf [0, 0, 1, 1] 0 ∧ 2 ∈ groupBOf [0, 0, 1, 1] 0) :=
  C5_one_vs_rest_partition [0, 0, 1, 1] 0 (by decide) 2

theorem bind_ok_iff {α β : Type} (x : Except PyErr α) (f : α → Except PyErr β) (b : β) :
    (x >>= f) = .ok b ↔ ∃ a, x = .ok a ∧ f a = .ok b := by
  cases x <;> simp

theorem countEq_nil (l : Int) : countEq l [] = 0 := rfl

theorem countEq_cons (l a : Int) (ps : List Int) :
    countEq l (a :: ps) =
      if a = l then countEq l ps + 1 else countEq l ps := by
  unfold countEq
  by_cases h : a = l <;> simp [List.filter_cons, h]

/-- Evaluation of the spec scenario: `explain` succeeds and produces
`exEff`. -/
theorem explain_exSt_eval :
    explain exSt "feat" (FeatureArg.single 0) none = .ok exEff := by
  norm_num [explain, exSt, exEff, lookupCol, List.find?, featValue2idx, fv2iAux,
    addIdx, shapeCheck, refCheck, checkFeats, keyMem, List.any, getIdxs,
    groupA, groupB, resolveLabels, sliceAt, _dpl, _di, metricLoop, dplBody,
    diBody, pyDiv, countEq_cons, countEq_nil, List.getD]

/-- Counterexample to C1: a successful `explain` call hands the caller
`None` — the metric mapping is printed, never returned. -/
theorem C1_counterexample :
    (explain exSt "feat" (FeatureArg.single 0) none).map ExplainEffect.ret =
      Except.ok (none : Option (List (String × List (Int × ℚ)))) := by
  rw [explain_exSt_eval]
  rfl

/-- C1 (amended): every successful `explain` call computes and prints a
mapping whose metric names are exactly `DPL` then `DI`, but returns
`None`; the printed dump is the only output of the call. -/
theorem C1_amended_prints_only (st : BiasState) (c : String) (arg : FeatureArg)
    (tv : Option LabelArg) (eff : ExplainEffect)
    (h : explain st c arg tv = .ok eff) :
    eff.ret = none ∧ eff.printed.map Prod.fst = ["DPL", "DI"] := by
  rw [explain.eq_def] at h
  rcases hcol : lookupCol st.columns c with _ | col
  · rw [hcol] at h; cases h
  · rw [hcol] at h
    simp only [bind_ok_iff] at h
    obtain ⟨u1, -, u2, -, d1, -, d2, -, hok⟩ := h
    cases hok
    exact ⟨rfl, rfl⟩

/-- Witness for the amended C1 at a concrete input. -/
theorem C1_amended_prints_only_witness :
    exEff.ret = none ∧ exEff.printed.map Prod.fst = ["DPL", "DI"] :=
  C1_amended_prints_only exSt "feat" (FeatureArg.single 0) none exEff
    explain_exSt_eval

theorem addIdx_entries_ne_nil (g : Int) (i : Nat) :
    ∀ m : List (Int × List Nat), (∀ p ∈ m, p.2 ≠ []) →
      ∀ p ∈ addIdx m g i, p.2 ≠ [] := by
  intro m
  induction m with
  | nil =>
    intro _ p hp
    rw [addIdx, List.mem_singleton] at hp
    subst hp
    simp
  | cons hd tl ih =>
    rcases hd with ⟨h1, h2⟩
    intro hm p hp
    by_cases hg : h1 = g
    · rw [addIdx, if_pos hg] at hp
      rcases List.mem_cons.mp hp with hp1 | hp2
      · subst hp1; simp
      · exact hm p (List.mem_cons_of_mem _ hp2)
    · rw [addIdx, if_neg hg] at hp
      rcases List.mem_cons.mp hp with hp1 | hp2
      · subst hp1; exact hm _ (List.mem_cons_self _ _)
      · exact ih (fun q hq => hm q (List.mem_cons_of_mem _ hq)) p hp2

theorem fv2iAux_entries_ne_nil :
    ∀ (col : List Int) (m : List (Int × List Nat)) (i : Nat),
      (∀ p ∈ m, p.2 ≠ []) → ∀ p ∈ fv2iAux m i col, p.2 ≠ [] := by
  intro col
  induction col with
  | nil => intro m i hm; exact hm
  | cons a rest ih =>
    intro m i hm
    rw [fv2iAux]
    exact ih _ _ (addIdx_entries_ne_nil a i m hm)

/-- `feat in feat_value2idx` holds exactly for the values observed in the
feature column. -/
theorem keyMem_featValue2idx (col : List Int) (f : Int) :
    keyMem f (featValue2idx col) = true ↔ f ∈ col := by
  constructor
  · intro h
    rw [keyMem, List.any_eq_true] at h
    obtain ⟨p, hp, hpf⟩ := h
    have hp1 : p.1 = f := beq_iff_eq.mp hpf
    have hne := fv2iAux_entries_ne_nil col [] 0 (fun q hq => absurd hq (List.not_mem_nil q)) p hp
    obtain ⟨j, hj⟩ := List.exists_mem_of_ne_nil p.2 hne
    have hsound := featValue2idx_sound col p hp j hj
    rw [hp1] at hsound
    exact List.get?_mem hsound
  · intro h
    obtain ⟨n, hn⟩ := List.get?_of_mem h
    have hmem : n ∈ getIdxs (featValue2idx col) f := by
      rw [featValue2idx, mem_getIdxs_fv2iAux]
      refine Or.inr ⟨Nat.zero_le _, ?_⟩
      simpa using hn
    obtain ⟨q, hq, hq1, _⟩ := exists_entry_of_mem_getIdxs _ f n hmem
    rw [keyMem, List.any_eq_true]
    exact ⟨q, hq, beq_iff_eq.mpr hq1⟩

theorem checkFeats_first_missing (m : List (Int × List Nat)) (w : Int) :
    ∀ fs : List Int, fs.find? (fun f => !keyMem f m) = some w →
      checkFeats m fs =
        .error (.assertionError ("Feature " ++ toString w ++ " does not exist.")) := by
  intro fs
  induction fs with
  | nil => intro h; cases h
  | cons f rest ih =>
    intro h
    cases hk : keyMem f m with
    | true =>
      have h2 : rest.find? (fun f => !keyMem f m) = some w := by
        rw [List.find?] at h
        rw [hk] at h
        simpa using h
      simpa [checkFeats, hk] using ih h2
    | false =>
      have hfw : f = w := by
        rw [List.find?] at h
        rw [hk] at h
        simpa using h
      subst hfw
      simp [checkFeats, hk]

theorem checkFeats_ok (m : List (Int × List Nat)) :
    ∀ fs : List Int, fs.find? (fun f => !keyMem f m) = none →
      checkFeats m fs = .ok () := by
  intro fs
  induction fs with
  | nil => intro _; rfl
  | cons f rest ih =>
    intro h
    cases hk : keyMem f m with
    | true =>
      have h2 : rest.find? (fun f => !keyMem f m) = none := by
        rw [List.find?] at h
        rw [hk] at h
        simpa using h
      simpa [checkFeats, hk] using ih h2
    | false =>
      exfalso
      rw [List.find?] at h
      rw [hk] at h
      simp at h

/-- C6: if the first referenced feature value missing from the chosen
column's observed values is `w`, then `explain` fails with the assertion
naming `w`, before any group or metric computation — no result is ever
produced.  The conjunct `w ∉ col` records that the named value is indeed
absent from the column. -/
theorem C6_unknown_feature_value (st : BiasState) (c : String) (col : List Int)
    (hcol : lookupCol st.columns c = some col) (arg : FeatureArg)
    (tv : Option LabelArg) (w : Int)
    (hshape : match arg with | .single _ => True | .lists gs => gs.length = 2)
    (hw : (referencedFeats arg).find?
      (fun f => !keyMem f (featValue2idx col)) = some w) :
    explain st c arg tv =
      .error (.assertionError ("Feature " ++ toString w ++ " does not exist.")) ∧
    w ∉ col := by
  have hwmiss : keyMem w (featValue2idx col) = false := by
    have hp := List.find?_some hw
    simpa using hp
  have hnotmem : w ∉ col := by
    intro hmem
    rw [← keyMem_featValue2idx col w] at hmem
    rw [hmem] at hwmiss
    cases hwmiss
  refine ⟨?_, hnotmem⟩
  rw [explain.eq_def, hcol]
  cases arg with
  | single v =>
    have hchk := checkFeats_first_missing (featValue2idx col) w [v] hw
    simp only [shapeCheck, refCheck, ok_bind, hchk, error_bind]
  | lists gs =>
    have hlen : gs.length = 2 := hshape
    rw [referencedFeats, List.find?_append] at hw
    simp only [shapeCheck, refCheck, if_pos hlen, ok_bind]
    rcases hf0 : (gs.getD 0 []).find? (fun f => !keyMem f (featValue2idx col)) with _ | u
    · rw [hf0, Option.none_or] at hw
      rw [checkFeats_ok (featValue2idx col) _ hf0, ok_bind,
        checkFeats_first_missing (featValue2idx col) w _ hw]
      rfl
    · rw [hf0, Option.or_some] at hw
      have huw : u = w := Option.some.inj hw
      subst huw
      rw [checkFeats_first_missing (featValue2idx col) u _ hf0]
      rfl

/-- Witness for C6 at a concrete input: value `7` is not a value of the
feature column. -/
theorem C6_unknown_feature_value_witness :
    (explain exSt "feat" (FeatureArg.single 7) none =
      .error (.assertionError ("Feature " ++ toString (7 : Int) ++ " does not exist.")) ∧
    (7 : Int) ∉ [0, 0, 1, 1]) :=
  C6_unknown_feature_value exSt "feat" [0, 0, 1, 1] (by rfl)
    (FeatureArg.single 7) none 7 trivial (by rfl)

theorem chunks_join_aux {α : Type} (b : Nat) :
    ∀ (n : Nat) (X : List α), X.length ≤ n → (chunks b X).flatten = X := by
  intro n
  induction n with
  | zero =>
    intro X h
    have hX : X = [] := List.length_eq_zero.mp (Nat.le_zero.mp h)
    subst hX
    simp [chunks]
  | succ n ih =>
    intro X h
    cases X with
    | nil => simp [chunks]
    | cons x xs =>
      rw [chunks]
      simp only [List.flatten_cons]
      rw [ih]
      · exact List.take_append_drop _ _
      · simp only [List.length_drop, List.length_cons]
        simp only [List.length_cons] at h
        omega

/-- The batches of `_predict` cover the dataset exactly, in original row
order. -/
theorem chunks_join {α : Type} (b : Nat) (X : List α) :
    (chunks b X).flatten = X :=
  chunks_join_aux b X.length X le_rfl

/-- For a per-row function applied batchwise, batching is invisible. -/
theorem chunks_map_join {α β : Type} (g : α → β) (b : Nat) (X : List α) :
    ((chunks b X).map (fun rows => rows.map g)).flatten = X.map g := by
  rw [← List.map_flatten, chunks_join]

theorem flatten_singletons {α β : Type} (e : α → β) (X : List α) :
    (X.map fun r => [e r]).flatten = X.map e := by
  induction X with
  | nil => simp
  | cons x xs ih => simp [ih]

/-- C7: for a fixed per-row prediction function applied batchwise,
`_predict` returns identical per-row predictions with `batch_size = 1`
and `batch_size = 64`, in both classification and regression mode. -/
theorem C7_batch_size_invariance {α : Type} (g : α → List ℚ) (X : List α) :
    predictCls (fun rows => rows.map g) X 1 =
      predictCls (fun rows => rows.map g) X 64 ∧
    predictReg (fun rows => rows.map g) X 1 =
      predictReg (fun rows => rows.map g) X 64 := by
  have h0 := chunks_map_join g 0 X
  have h63 := chunks_map_join g 63 X
  constructor
  · rw [predictCls, predictCls]
    norm_num [h0, h63]
  · rw [predictReg, predictReg]
    norm_num [h0, h63]

theorem getD_le_listMax :
    ∀ (v : List ℚ) (j : Nat), j < v.length → v.getD j 0 ≤ listMax v := by
  intro v
  induction v with
  | nil => intro j hj; simp at hj
  | cons x t ih =>
    intro j hj
    cases t with
    | nil =>
      cases j with
      | zero => simp [listMax]
      | succ k => simp at hj
    | cons y ys =>
      cases j with
      | zero => simpa [listMax] using le_max_left x (listMax (y :: ys))
      | succ k =>
        have hk : k < (y :: ys).length := by
          simpa using hj
        calc (x :: y :: ys).getD (k + 1) 0 = (y :: ys).getD k 0 := by simp
        _ ≤ listMax (y :: ys) := ih k hk
        _ ≤ listMax (x :: y :: ys) := by
              simpa [listMax] using le_max_right x (listMax (y :: ys))

theorem argmax_spec :
    ∀ v : List ℚ, v ≠ [] →
      argmax v < v.length ∧ v.getD (argmax v) 0 = listMax v ∧
        ∀ j < argmax v, v.getD j 0 < listMax v := by
  intro v
  induction v with
  | nil => intro h; exact absurd rfl h
  | cons x t ih =>
    intro _
    cases t with
    | nil =>
      refine ⟨by simp [argmax], by simp [argmax, listMax], ?_⟩
      intro j hj
      rw [argmax] at hj
      exact absurd hj (Nat.not_lt_zero j)
    | cons y ys =>
      obtain ⟨ihlen, ihval, ihlt⟩ := ih (by simp)
      by_cases hx : x < listMax (y :: ys)
      · have hA : argmax (x :: y :: ys) = argmax (y :: ys) + 1 := by
          rw [argmax, if_pos hx]
        have hM : listMax (x :: y :: ys) = listMax (y :: ys) := by
          rw [listMax]
          exact max_eq_right (le_of_lt hx)
        refine ⟨?_, ?_, ?_⟩
        · rw [hA]; simpa using Nat.succ_lt_succ ihlen
        · rw [hA, hM]; simpa using ihval
        · intro j hj
          rw [hA] at hj
          rw [hM]
          cases j with
          | zero => simpa using hx
          | succ k =>
            have hk : k < argmax (y :: ys) := Nat.lt_of_succ_lt_succ hj
            simpa using ihlt k hk
      · have hA : argmax (x :: y :: ys) = 0 := by
          rw [argmax, if_neg hx]
        have hM : listMax (x :: y :: ys) = x := by
          rw [listMax]
          exact max_eq_left (le_of_not_lt hx)
        refine ⟨by rw [hA]; simp, by rw [hA, hM]; simp, ?_⟩
        intro j hj
        rw [hA] at hj
        exact absurd hj (Nat.not_lt_zero j)

/-- C8: for any batch size `b + 1`, the batches cover the dataset in
original row order; in classification mode a per-row score function
yields, per row, `argmax` of that row's scores, and `argmax` is the
first occurring maximum; in regression mode per-row scalars are
flattened to one scalar per row. -/
theorem C8_predict_procedure {α : Type} (g : α → List ℚ) (e : α → ℚ)
    (X : List α) (b : Nat) :
    (chunks b X).flatten = X ∧
    (X ≠ [] → predictCls (fun rows => rows.map g) X (b + 1) =
      .ok (X.map fun r => argmax (g r))) ∧
    (∀ v : List ℚ, v ≠ [] → FirstMaxAt v (argmax v)) ∧
    (X ≠ [] → predictReg (fun rows => rows.map fun r => [e r]) X (b + 1) =
      .ok (X.map e)) := by
  refine ⟨chunks_join b X, ?_, ?_, ?_⟩
  · intro hX
    have hne : X.isEmpty = false := by
      cases X with
      | nil => exact absurd rfl hX
      | cons x xs => rfl
    rw [predictCls, if_neg (Nat.succ_ne_zero b), hne]
    simp only [Bool.false_eq_true, if_false, Nat.add_sub_cancel]
    rw [chunks_map_join, List.map_map]
    rfl
  · intro v hv
    obtain ⟨hlen, hval, hlt⟩ := argmax_spec v hv
    refine ⟨hlen, ?_, ?_⟩
    · intro j hj
      rw [hval]
      exact getD_le_listMax v j hj
    · intro j hj
      rw [hval]
      exact hlt j hj
  · intro hX
    have hne : X.isEmpty = false := by
      cases X with
      | nil => exact absurd rfl hX
      | cons x xs => rfl
    rw [predictReg, if_neg (Nat.succ_ne_zero b), hne]
    simp only [Bool.false_eq_true, if_false, Nat.add_sub_cancel]
    rw [chunks_map_join, flatten_singletons]

/-- Witness for C8 at a concrete input. -/
theorem C8_predict_procedure_witness :
    ([(3 : Int)] : List Int) ≠ [] ∧
    predictCls (fun rows => rows.map (fun r : Int => [(r : ℚ), 0]))
        [(3 : Int)] (0 + 1) =
      .ok ([(3 : Int)].map fun r => argmax [(r : ℚ), 0]) ∧
    predictReg (fun rows => rows.map (fun r : Int => [(r : ℚ)]))
        [(3 : Int)] (0 + 1) =
      .ok ([(3 : Int)].map fun r => (r : ℚ)) ∧
    FirstMaxAt [(3 : ℚ), 0] (argmax [(3 : ℚ), 0]) :=
  ⟨by simp,
   (C8_predict_procedure (fun r : Int => [(r : ℚ), 0]) (fun r : Int => (r : ℚ))
     [(3 : Int)] 0).2.1 (by simp),
   (C8_predict_procedure (fun r : Int => [(r : ℚ), 0]) (fun r : Int => (r : ℚ))
     [(3 : Int)] 0).2.2.2 (by simp),
   (C8_predict_procedure (fun r : Int => [(r : ℚ), 0]) (fun r : Int => (r : ℚ))
     [(3 : Int)] 0).2.2.1 [(3 : ℚ), 0] (by simp)⟩

/-- C3, evaluated on the code: (1) with a perfectly valid two-row integer
target column and absent `training_targets`, construction raises the
pandas truth-value `ValueError` instead of extracting the targets — the
line-52 check compares the Series object itself, not its dtype, with the
type objects; (2) with a valid one-row integer column it raises the
`InvalidTargetType` assert even though the column is integer-typed;
(3) the `MissingTarget` assert itself behaves as claimed.  So the
intended extraction of a valid target column is unreachable. -/
theorem C3_target_validation_bug :
    biasInit { columns := [("f", [7, 8]), ("label", [0, 1])],
               target_column := some "label" } "classification" none =
      .error (.valueError "The truth value of a Series is ambiguous.") ∧
    biasInit { columns := [("f", [7]), ("label", [0])],
               target_column := some "label" } "classification" none =
      .error (.assertionError
        "The targets/labels in `training_data` must be either int or float.") ∧
    biasInit { columns := [("f", [7, 8])], target_column := none }
        "classification" none =
      .error (.assertionError
        "`training_data` has no label/target column. Please set `training_targets`") :=
  ⟨rfl, rfl, rfl⟩

end OmniXAI
